import Mathlib

/-!
Shallow embedding of the change-detection and scheduled-sync engine of the
VPN-to-GitHub repository (src/git_manager.py, src/file_watcher.py,
src/scheduler.py), together with theorems settling the specification claims.

Machine-level effects are made explicit: the filesystem is a function from
paths to optional file states, git operations are recorded in a trace, and
clock samples of the scheduler loop are inputs. The content-hash function
(MD5 in the source) is a parameter everywhere: no claim depends on the hash
algorithm itself, only on hashes being a function of file content.
-/

namespace VpnSync

/-! ### Python string primitives

`listStarts`, `listContains` and `replaceFrom` mirror Python str.startswith,
the `in` substring test, and str.replace (non-overlapping, left to right,
with the empty-pattern behaviour of inserting the replacement at every
position). -/

def listStarts : List Char → List Char → Bool
  | [], _ => true
  | _ :: _, [] => false
  | p :: ps, c :: cs => p == c && listStarts ps cs

def listContains : List Char → List Char → Bool
  | [], needle => listStarts needle []
  | c :: rest, needle => listStarts needle (c :: rest) || listContains rest needle

def pyStartsWith (s p : String) : Bool := listStarts p.toList s.toList

def pyContains (s sub : String) : Bool := listContains s.toList sub.toList

def replaceFrom (pat rep : List Char) (s : List Char) : List Char :=
  match s with
  | [] => if pat.isEmpty then rep else []
  | c :: rest =>
    if pat.isEmpty then rep ++ c :: replaceFrom pat rep rest
    else if listStarts pat (c :: rest) then
      rep ++ replaceFrom pat rep (rest.drop (pat.length - 1))
    else c :: replaceFrom pat rep rest
termination_by s.length
decreasing_by
  all_goals simp [List.length_drop]
  omega

def pyReplace (s pat rep : String) : String :=
  (replaceFrom pat.toList rep.toList s.toList).asString

/-! ### Python dict model (string-keyed association list)

Insertion updates an existing key in place (keeping its position, as CPython
dicts keep insertion order) or appends a fresh key at the end. -/

def alistGet? {β : Type} (d : List (String × β)) (k : String) : Option β :=
  match d.find? (fun p => p.1 == k) with
  | some p => some p.2
  | none => none

def alistInsert {β : Type} : List (String × β) → String → β → List (String × β)
  | [], k, v => [(k, v)]
  | (k', v') :: rest, k, v =>
    if k' == k then (k, v) :: rest else (k', v') :: alistInsert rest k v

abbrev HashDict := List (String × String)

/-- Python `d.get(k, default)`. -/
def dictGet (d : HashDict) (k dflt : String) : String := (alistGet? d k).getD dflt

/-! ### GitManager (src/git_manager.py)

A source file is identified by its basename together with its on-disk state:
absent, readable with some byte content, or existing but raising an OS error
(with the OS error message) when opened for reading. Git side effects are
recorded as a trace of `GitOp`s; whether each git step would succeed is part
of the environment `GitEnv`. -/

inductive FileState : Type
  | absent : FileState
  | readable (content : List Nat) : FileState
  | unreadable (errMsg : String) : FileState
deriving DecidableEq, Repr

structure SrcFile where
  name : String
  state : FileState
deriving DecidableEq, Repr

inductive GitOp : Type
  | setRemote (url : String)
  | pull
  | copy (name : String)
  | addAll
  | commit (msg : String)
  | push
deriving DecidableEq, Repr

/-- Environment for one `sync_and_upload` attempt: the repository URL, and
whether each external git / filesystem step would succeed. `copyFails`
lists the basenames whose `shutil.copy2` raises. -/
structure GitEnv where
  repoUrl : String
  loadOk : Bool
  pullOk : Bool
  copyFails : List String
  addOk : Bool
  commitOk : Bool
  pushOk : Bool
  addErr : String
  commitErr : String
  pushErr : String
deriving Repr

/-- `GitManager._build_auth_url` (git_manager.py lines 64-73). -/
def build_auth_url (repo_url username token : String) : String :=
  if token == "" then repo_url
  else if pyContains repo_url "github.com" then
    if pyStartsWith repo_url "https://" then
      pyReplace repo_url "https://" ("https://" ++ username ++ ":" ++ token ++ "@")
    else if pyStartsWith repo_url "git@" then
      repo_url
    else repo_url
  else repo_url

/-- `GitManager.get_file_hash` (git_manager.py lines 82-90). A nonexistent
file yields `""`; reading an existing file streams its bytes through MD5
(the hash function is the parameter `hashFn`); an OS error while opening or
reading propagates as an exception (`Except.error`): the source has no
try/except here. -/
def get_file_hash (hashFn : List Nat → String) (f : SrcFile) : Except String String :=
  match f.state with
  | .absent => .ok ""
  | .readable c => .ok (hashFn c)
  | .unreadable msg => .error msg

/-- Loop body of `GitManager.has_changes` (git_manager.py lines 109-118),
accumulating the changed-file list and the current-hash dict in order. -/
def hasChangesGo (hashFn : List Nat → String) (stored : HashDict) :
    List SrcFile → List SrcFile → HashDict → Except String (List SrcFile × HashDict)
  | [], changed, cur => .ok (changed, cur)
  | f :: rest, changed, cur =>
    match f.state with
    | .absent => hasChangesGo hashFn stored rest changed cur
    | .readable c =>
      let h := hashFn c
      let cur' := alistInsert cur f.name h
      let changed' := if h == dictGet stored f.name "" then changed else changed ++ [f]
      hasChangesGo hashFn stored rest changed' cur'
    | .unreadable msg => .error msg

/-- `GitManager.has_changes` (git_manager.py lines 105-120). -/
def has_changes (hashFn : List Nat → String) (files : List SrcFile) (stored : HashDict) :
    Except String (Bool × List SrcFile × HashDict) :=
  match hasChangesGo hashFn stored files [] [] with
  | .ok (changed, cur) => .ok (decide (0 < changed.length), changed, cur)
  | .error m => .error m

/-- `GitManager.copy_files` (git_manager.py lines 92-103): per-file
try/except, collecting `(name, success)` results; successful copies appear
in the git-op trace. -/
def copy_files (copyFails : List String) : List SrcFile → List (String × Bool) × List GitOp
  | [] => ([], [])
  | f :: rest =>
    let r := copy_files copyFails rest
    if copyFails.contains f.name then ((f.name, false) :: r.1, r.2)
    else ((f.name, true) :: r.1, GitOp.copy f.name :: r.2)

/-- `GitManager.commit_and_push` (git_manager.py lines 122-166): load the
repo if needed, `git add -A`, commit with `--allow-empty` (default message
is timestamped when the given message is empty), then push; each git step
may raise `GitCommandError`, caught and turned into a failure result. The
returned trace holds the git operations that completed. -/
def commit_and_push (env : GitEnv) (repoLoaded : Bool) (commitMessage time : String) :
    (Bool × String) × List GitOp :=
  if !repoLoaded && !env.loadOk then ((false, "仓库未加载"), [])
  else if !env.addOk then ((false, "Git操作失败: " ++ env.addErr), [])
  else
    let msg := if commitMessage == "" then "自动更新 - 上传时间: " ++ time else commitMessage
    if !env.commitOk then ((false, "Git操作失败: " ++ env.commitErr), [GitOp.addAll])
    else if !env.pushOk then
      ((false, "Git操作失败: " ++ env.pushErr), [GitOp.addAll, GitOp.commit msg])
    else ((true, "上传成功 - " ++ time), [GitOp.addAll, GitOp.commit msg, GitOp.push])

structure SyncResult where
  success : Bool
  message : String
  hashes : HashDict
  ops : List GitOp
deriving DecidableEq, Repr

/-- The tail of `sync_and_upload` after `has_changes` returned
`(hasCh, changed, cur)` (git_manager.py lines 178-210): refresh the remote
credential when username and token are given, pull (failure tolerated),
copy only the changed files (any copy failure aborts with the stored
hashes), then commit and push; only on full success are the freshly
computed hashes `cur` returned. -/
def syncAfterDiff (env : GitEnv) (stored : HashDict) (username token time : String)
    (hasCh : Bool) (changed : List SrcFile) (cur : HashDict) : SyncResult :=
  let authOps : List GitOp :=
    if username != "" && token != "" then
      [GitOp.setRemote (build_auth_url env.repoUrl username token)]
    else []
  let pullOps : List GitOp := if env.pullOk then [GitOp.pull] else []
  let cr := if hasCh && !changed.isEmpty then copy_files env.copyFails changed else ([], [])
  let failed := (cr.1.filter (fun r => !r.2)).map Prod.fst
  if !failed.isEmpty then
    { success := false, message := "复制文件失败: " ++ String.intercalate ", " failed,
      hashes := stored, ops := authOps ++ pullOps ++ cr.2 }
  else
    let cp := commit_and_push env true ("自动更新 - " ++ time) time
    if cp.1.1 then
      { success := true, message := cp.1.2, hashes := cur,
        ops := authOps ++ pullOps ++ cr.2 ++ cp.2 }
    else
      { success := false, message := cp.1.2, hashes := stored,
        ops := authOps ++ pullOps ++ cr.2 ++ cp.2 }

/-- `GitManager.sync_and_upload` (git_manager.py lines 168-213): ensure the
repo is loaded, diff the source files against the stored hashes (an
exception here is caught by the outer handler as `同步失败`), then run the
rest of the attempt (`syncAfterDiff`). -/
def sync_and_upload (hashFn : List Nat → String) (env : GitEnv) (repoLoaded : Bool)
    (files : List SrcFile) (stored : HashDict) (username token time : String) : SyncResult :=
  if !repoLoaded && !env.loadOk then
    { success := false, message := "无法加载仓库，请先初始化仓库", hashes := stored, ops := [] }
  else
    match has_changes hashFn files stored with
    | .error e => { success := false, message := "同步失败: " ++ e, hashes := stored, ops := [] }
    | .ok (hasCh, changed, cur) => syncAfterDiff env stored username token time hasCh changed cur

/-! ### UploadScheduler (src/scheduler.py)

The loop in `UploadScheduler._run_loop` wakes every 30 seconds, compares the
clock against `_next_run_time`, and when due runs the callback, records
`_last_run_time = datetime.now()` and reschedules
`_next_run_time = datetime.now() + interval`. One loop iteration is driven
by three clock samples: `tCheck` (line 50), `tAfter` (line 54, after the
callback returned) and `tResched` (line 57); `cbThrows` marks an iteration
whose callback raised, which the except-branch swallows, leaving the state
untouched. Time is in abstract units and `interval` is the timedelta added
to the clock. -/

structure SchedState where
  interval : Nat
  nextRun : Option Nat
  lastRun : Option Nat
deriving DecidableEq, Repr

structure PollTimes where
  tCheck : Nat
  tAfter : Nat
  tResched : Nat
  cbThrows : Bool
deriving DecidableEq, Repr

/-- One iteration of `UploadScheduler._run_loop` (scheduler.py lines 48-61). -/
def loopIter (s : SchedState) (p : PollTimes) : SchedState :=
  match s.nextRun with
  | none => s
  | some nr =>
    if nr ≤ p.tCheck then
      if p.cbThrows then s
      else { s with lastRun := some p.tAfter, nextRun := some (p.tResched + s.interval) }
    else s

/-- The scheduler loop over a sequence of clock-sampled iterations. -/
def runLoop (s : SchedState) (ps : List PollTimes) : SchedState := ps.foldl loopIter s

/-- `UploadScheduler.start` (scheduler.py lines 17-37): sets
`_next_run_time = now + interval`; `_last_run_time` is not reset. -/
def schedStart (intervalHours now : Nat) (prev : SchedState) : SchedState :=
  { interval := intervalHours, nextRun := some (now + intervalHours), lastRun := prev.lastRun }

/-- The spacing invariant of ScheduleState: whenever both times are set, the
pending fire is at least one interval after the last completed fire. -/
def schedInv (s : SchedState) : Prop :=
  ∀ l nr, s.lastRun = some l → s.nextRun = some nr → l + s.interval ≤ nr

/-! ### FileHashCache (src/file_watcher.py lines 76-124)

The filesystem is a function from path strings to an optional `FsFile`:
`none` means the path does not exist; `content = none` means the file exists
(stat succeeds) but opening/reading it raises an OS error. `readBytes`
records whether the call invoked `_calculate_hash`, i.e. opened the file. -/

structure FsFile where
  mtime : Nat
  size : Nat
  content : Option (List Nat)
deriving DecidableEq, Repr

structure CacheEntry where
  key : String
  hash : String
deriving DecidableEq, Repr

abbrev HashCache := List (String × CacheEntry)

/-- The cache key `f"{mtime}_{size}"` (file_watcher.py line 91). -/
def statKey (f : FsFile) : String := toString f.mtime ++ "_" ++ toString f.size

/-- `FileHashCache._calculate_hash` (file_watcher.py lines 103-111): stream
the bytes through MD5; any exception yields `""`. -/
def calculate_hash (hashFn : List Nat → String) (f : FsFile) : String :=
  match f.content with
  | some bytes => hashFn bytes
  | none => ""

structure GetHashResult where
  hash : String
  cache : HashCache
  readBytes : Bool
deriving DecidableEq, Repr

/-- `FileHashCache.get_hash` (file_watcher.py lines 82-101). The
`self._lock.wait()` is a no-op (the Event is set in the constructor) and is
not modelled. -/
def get_hash (hashFn : List Nat → String) (fs : String → Option FsFile)
    (cache : HashCache) (path : String) : GetHashResult :=
  match fs path with
  | none => { hash := "", cache := cache, readBytes := false }
  | some f =>
    let key := statKey f
    match alistGet? cache path with
    | some e =>
      if e.key == key then { hash := e.hash, cache := cache, readBytes := false }
      else
        { hash := calculate_hash hashFn f,
          cache := alistInsert cache path { key := key, hash := calculate_hash hashFn f },
          readBytes := true }
    | none =>
      { hash := calculate_hash hashFn f,
        cache := alistInsert cache path { key := key, hash := calculate_hash hashFn f },
        readBytes := true }

/-- `FileHashCache.update_hash` (file_watcher.py lines 116-124). -/
def update_hash (fs : String → Option FsFile) (cache : HashCache)
    (path fileHash : String) : HashCache :=
  match fs path with
  | none => cache
  | some f => alistInsert cache path { key := statKey f, hash := fileHash }

/-! ### FileWatcher (src/file_watcher.py lines 30-73) -/

structure WatcherState where
  running : Bool
  observerActive : Bool
deriving DecidableEq, Repr

/-- `FileWatcher.stop` (file_watcher.py lines 61-66): stops and joins the
observer, clears it, and sets `_running = False`. -/
def fw_stop (_s : WatcherState) : WatcherState := { running := false, observerActive := false }

structure StartResult where
  ok : Bool
  state : WatcherState
  subscriptionStarted : Bool
deriving DecidableEq, Repr

/-- `FileWatcher.start` (file_watcher.py lines 39-59): stop a running
session first; a nonexistent directory returns `False` before any observer
is created; otherwise create/schedule/start the observer (`observerOk`
says whether that try-block succeeds) and set `_running = True`. -/
def fw_start (s : WatcherState) (dirExists observerOk : Bool) : StartResult :=
  let s1 := if s.running then fw_stop s else s
  if !dirExists then { ok := false, state := s1, subscriptionStarted := false }
  else if observerOk then
    { ok := true, state := { running := true, observerActive := true },
      subscriptionStarted := true }
  else
    { ok := false, state := { running := s1.running, observerActive := false },
      subscriptionStarted := false }

/-! ### Derived notions used by the claims -/

/-- `True` when `has_changes` would classify `f` as changed: the file exists
and its current content hash differs from the stored baseline hash for its
basename. -/
def isChangedB (hashFn : List Nat → String) (stored : HashDict) (f : SrcFile) : Bool :=
  match f.state with
  | .readable c => !(hashFn c == dictGet stored f.name "")
  | _ => false

/-- The current-hash dict built by the `has_changes` loop: one entry per
existing file, keyed by basename. -/
def currentHashes (hashFn : List Nat → String) : List SrcFile → HashDict → HashDict
  | [], cur => cur
  | f :: rest, cur =>
    match f.state with
    | .readable c => currentHashes hashFn rest (alistInsert cur f.name (hashFn c))
    | _ => currentHashes hashFn rest cur

/-- `f` is not in the unreadable (I/O-error-on-read) state. -/
def notUnreadable (f : SrcFile) : Bool :=
  match f.state with
  | .unreadable _ => false
  | _ => true

/-- The basenames copied into the working tree, in trace order. -/
def copiedNames (ops : List GitOp) : List String :=
  ops.filterMap fun op =>
    match op with
    | .copy n => some n
    | _ => none

/-- The trace ends with stage-all, a commit carrying the timestamped
message, and a push, in that order. -/
def commitsThenPushes (r : SyncResult) (time : String) : Prop :=
  ∃ pre, r.ops = pre ++ [GitOp.addAll, GitOp.commit ("自动更新 - " ++ time), GitOp.push]

/-- A fully healthy environment, used to exercise concrete scenarios. -/
def envAllOk : GitEnv :=
  { repoUrl := "https://github.com/u/r.git", loadOk := true, pullOk := true,
    copyFails := [], addOk := true, commitOk := true, pushOk := true,
    addErr := "", commitErr := "", pushErr := "" }

/-- Like `envAllOk` but the push step raises `GitCommandError`. -/
def envPushFails : GitEnv :=
  { envAllOk with pushOk := false, pushErr := "remote rejected" }

/-- A simple executable stand-in for the MD5 hex digest in concrete
scenarios: any function of the byte content works for every theorem. -/
def exHash (c : List Nat) : String := toString c

/-! ### Association-list lemmas -/

theorem alistGet?_insert_self {β : Type} (d : List (String × β)) (k : String) (v : β) :
    alistGet? (alistInsert d k v) k = some v := by
  induction d with
  | nil => simp [alistInsert, alistGet?]
  | cons p rest ih =>
    obtain ⟨k', v'⟩ := p
    by_cases h : (k' == k) = true
    · simp [alistInsert, alistGet?, h]
    · simp only [alistInsert, Bool.not_eq_true] at *
      simp [alistGet?, h] at ih ⊢
      exact ih

theorem alistGet?_insert_ne {β : Type} (d : List (String × β)) (kIns k : String) (v : β)
    (h : (kIns == k) = false) :
    alistGet? (alistInsert d kIns v) k = alistGet? d k := by
  induction d with
  | nil => simp [alistInsert, alistGet?, h]
  | cons p rest ih =>
    obtain ⟨k', v'⟩ := p
    by_cases h1 : (k' == kIns) = true
    · have hk' : (k' == k) = false := by
        have : k' = kIns := by simpa using h1
        simpa [this] using h
      simp [alistInsert, alistGet?, h1, h, hk']
    · by_cases h2 : (k' == k) = true
      · simp [alistInsert, alistGet?, h1, h2]
      · simp only [alistInsert, alistGet?] at *
        simp [h1, h2] at ih ⊢
        exact ih

theorem dictGet_insert_self (d : HashDict) (k v dflt : String) :
    dictGet (alistInsert d k v) k dflt = v := by
  simp [dictGet, alistGet?_insert_self]

theorem dictGet_insert_ne (d : HashDict) (kIns k v dflt : String) (h : (kIns == k) = false) :
    dictGet (alistInsert d kIns v) k dflt = dictGet d k dflt := by
  simp [dictGet, alistGet?_insert_ne d kIns k v h]

/-- Claim C10: updateHash on a path whose file does not exist leaves the
fingerprint record map unchanged: no record is seeded for a nonexistent
file. -/
theorem update_hash_missing_file_noop (fs : String → Option FsFile) (cache : HashCache)
    (path fileHash : String) (hf : fs path = none) :
    update_hash fs cache path fileHash = cache := by
  unfold update_hash
  rw [hf]

theorem update_hash_missing_file_noop_w :
    update_hash (fun _ => none) [("q", { key := "1_2", hash := "h" })] "p" "newh" =
      [("q", { key := "1_2", hash := "h" })] :=
  update_hash_missing_file_noop (fun _ => none) [("q", { key := "1_2", hash := "h" })]
    "p" "newh" rfl

/-- Claim C8: starting the watcher against a nonexistent directory returns
false, starts no background notification subscription, and leaves
isRunning false afterward, from any prior state. -/
theorem watcher_start_missing_dir (s : WatcherState) (observerOk : Bool) :
    (fw_start s false observerOk).ok = false ∧
    (fw_start s false observerOk).state.running = false ∧
    (fw_start s false observerOk).subscriptionStarted = false := by
  obtain ⟨r, o⟩ := s
  cases r <;> simp [fw_start, fw_stop]

/-- Claim C7: getHash is total: a nonexistent path yields the empty
sentinel hash (and touches nothing), and when the call actually reads the
file bytes and that read raises an I/O error, the returned hash is the
empty hash instead of a propagated error. -/
theorem get_hash_never_fails (hashFn : List Nat → String) (fs : String → Option FsFile)
    (cache : HashCache) (path : String) :
    (fs path = none →
      get_hash hashFn fs cache path = { hash := "", cache := cache, readBytes := false }) ∧
    (∀ f, fs path = some f → f.content = none →
      (get_hash hashFn fs cache path).readBytes = true →
      (get_hash hashFn fs cache path).hash = "") := by
  constructor
  · intro h
    unfold get_hash
    rw [h]
  · intro f hf hc
    unfold get_hash
    rw [hf]
    cases hg : alistGet? cache path with
    | none => intro _; simp [calculate_hash, hc]
    | some e =>
      by_cases hk : (e.key == statKey f) = true
      · simp [hk]
      · simp [hk, calculate_hash, hc]

theorem get_hash_never_fails_w :
    get_hash exHash (fun _ => none) [] "p" = { hash := "", cache := [], readBytes := false } ∧
    (get_hash exHash (fun _ => some { mtime := 5, size := 10, content := none }) [] "q").hash
      = "" :=
  ⟨(get_hash_never_fails exHash (fun _ => none) [] "p").1 rfl,
   (get_hash_never_fails exHash (fun _ => some { mtime := 5, size := 10, content := none })
      [] "q").2 { mtime := 5, size := 10, content := none } rfl rfl (by decide)⟩

/-- Claim C6: if the mtime and size of a file are unchanged between two getHash
calls, the second call returns the identical hash and performs no byte
read (no recomputation of the content hash). -/
theorem cache_hit_no_byte_read (hashFn : List Nat → String)
    (fs₁ fs₂ : String → Option FsFile) (cache : HashCache) (path : String)
    (f₁ f₂ : FsFile) (h₁ : fs₁ path = some f₁) (h₂ : fs₂ path = some f₂)
    (hm : f₂.mtime = f₁.mtime) (hs : f₂.size = f₁.size) :
    (get_hash hashFn fs₂ (get_hash hashFn fs₁ cache path).cache path).hash =
      (get_hash hashFn fs₁ cache path).hash ∧
    (get_hash hashFn fs₂ (get_hash hashFn fs₁ cache path).cache path).readBytes = false := by
  have hkey : statKey f₂ = statKey f₁ := by simp [statKey, hm, hs]
  simp only [get_hash, h₁, h₂, hkey]
  cases hg : alistGet? cache path with
  | none =>
    simp only [hg]
    rw [alistGet?_insert_self]
    simp
  | some e =>
    by_cases hk : (e.key == statKey f₁) = true
    · simp [hg, hk]
    · simp only [hg, hk, Bool.false_eq_true, if_false]
      rw [alistGet?_insert_self]
      simp

theorem cache_hit_no_byte_read_w :
    (get_hash exHash (fun _ => some { mtime := 5, size := 10, content := some [1, 2] })
      (get_hash exHash (fun _ => some { mtime := 5, size := 10, content := some [1, 2] })
        [] "p").cache "p").hash =
      (get_hash exHash (fun _ => some { mtime := 5, size := 10, content := some [1, 2] })
        [] "p").hash ∧
    (get_hash exHash (fun _ => some { mtime := 5, size := 10, content := some [1, 2] })
      (get_hash exHash (fun _ => some { mtime := 5, size := 10, content := some [1, 2] })
        [] "p").cache "p").readBytes = false :=
  cache_hit_no_byte_read exHash _ _ [] "p"
    { mtime := 5, size := 10, content := some [1, 2] }
    { mtime := 5, size := 10, content := some [1, 2] } rfl rfl rfl rfl

/-- Claim C5: firing recomputes the next fire time as now + interval at the
moment the callback completed, so across any sequence of loop iterations
with a monotone clock, the pending fire time stays at least one interval
after the last completed fire. -/
theorem scheduler_min_spacing (s : SchedState) (ps : List PollTimes)
    (hmono : ps.all (fun p => decide (p.tAfter ≤ p.tResched)) = true)
    (h0 : schedInv s) : schedInv (runLoop s ps) := by
  induction ps generalizing s with
  | nil => exact h0
  | cons p rest ih =>
    rw [List.all_cons, Bool.and_eq_true] at hmono
    obtain ⟨hp, hrest⟩ := hmono
    have hp' : p.tAfter ≤ p.tResched := by simpa using hp
    have hstep : schedInv (loopIter s p) := by
      unfold loopIter
      cases hn : s.nextRun with
      | none => exact h0
      | some nr =>
        by_cases hd : nr ≤ p.tCheck
        · by_cases hc : p.cbThrows = true
          · simpa [hd, hc] using h0
          · simp only [Bool.not_eq_true] at hc
            simp only [hd, hc, if_true, if_false, Bool.false_eq_true]
            intro l nr' hl hnr
            injection hl with hl
            injection hnr with hnr
            subst hl
            subst hnr
            show p.tAfter + s.interval ≤ p.tResched + s.interval
            omega
        · simpa [hd] using h0
    have : runLoop s (p :: rest) = runLoop (loopIter s p) rest := by
      simp [runLoop, List.foldl_cons]
    rw [this]
    exact ih (loopIter s p) hrest hstep

theorem scheduler_min_spacing_w :
    schedInv (runLoop { interval := 6, nextRun := some 10, lastRun := none }
      [{ tCheck := 12, tAfter := 20, tResched := 21, cbThrows := false },
       { tCheck := 27, tAfter := 40, tResched := 41, cbThrows := false }]) :=
  scheduler_min_spacing { interval := 6, nextRun := some 10, lastRun := none }
    [{ tCheck := 12, tAfter := 20, tResched := 21, cbThrows := false },
     { tCheck := 27, tAfter := 40, tResched := 41, cbThrows := false }]
    (by decide) (fun l nr hl _ => by cases hl)

theorem starts_https_and_gitat_false (s : String)
    (h1 : pyStartsWith s "https://" = true) (h2 : pyStartsWith s "git@" = true) : False := by
  have e1 : "https://".toList = ['h', 't', 't', 'p', 's', ':', '/', '/'] := by decide
  have e2 : "git@".toList = ['g', 'i', 't', '@'] := by decide
  unfold pyStartsWith at h1 h2
  rw [e1] at h1
  rw [e2] at h2
  cases hs : s.toList with
  | nil =>
    rw [hs] at h1
    simp [listStarts] at h1
  | cons c cs =>
    rw [hs] at h1 h2
    simp only [listStarts, Bool.and_eq_true, beq_iff_eq] at h1 h2
    rw [← h1.1] at h2
    exact absurd h2.1 (by decide)

/-- Claim C9: the credential is embedded only for https URLs containing
github.com: with an empty token, or a URL not containing github.com, or a
URL starting with git@, the authenticated-URL builder returns the original
URL unchanged. -/
theorem build_auth_url_no_credential (repoUrl username token : String)
    (h : token = "" ∨ pyContains repoUrl "github.com" = false ∨
      pyStartsWith repoUrl "git@" = true) :
    build_auth_url repoUrl username token = repoUrl := by
  unfold build_auth_url
  rcases h with h | h | h
  · subst h
    simp
  · by_cases ht : (token == "") = true <;> simp [ht, h]
  · by_cases ht : (token == "") = true
    · simp [ht]
    · by_cases hcont : pyContains repoUrl "github.com" = true
      · by_cases hh : pyStartsWith repoUrl "https://" = true
        · exact (starts_https_and_gitat_false repoUrl hh h).elim
        · simp [ht, hcont, hh, h]
      · simp [ht, hcont]

theorem build_auth_url_no_credential_w :
    build_auth_url "git@github.com:u/r.git" "user" "tok" = "git@github.com:u/r.git" :=
  build_auth_url_no_credential "git@github.com:u/r.git" "user" "tok"
    (Or.inr (Or.inr (by decide)))

/-- Claim C1: whenever syncAndUpload returns a failure — repository not
loadable, a hashing exception, a failed copy, or a failed commit/push — the
returned hash map is exactly the input baseline map: no partial hash
adoption on any failure path. -/
theorem sync_failure_preserves_baseline (hashFn : List Nat → String) (env : GitEnv)
    (repoLoaded : Bool) (files : List SrcFile) (stored : HashDict)
    (username token time : String)
    (hfail : (sync_and_upload hashFn env repoLoaded files stored username token time).success
      = false) :
    (sync_and_upload hashFn env repoLoaded files stored username token time).hashes
      = stored := by
  revert hfail
  unfold sync_and_upload syncAfterDiff
  simp only []
  repeat' split
  all_goals intro h
  all_goals first | rfl | simp_all

theorem sync_failure_preserves_baseline_w :
    (sync_and_upload exHash envPushFails true [{ name := "a", state := FileState.readable [1] }]
      [("z", "old")] "" "" "T").hashes = [("z", "old")] :=
  sync_failure_preserves_baseline exHash envPushFails true
    [{ name := "a", state := FileState.readable [1] }] [("z", "old")] "" "" "T" rfl

/-- Claim C2, counterexample: a sync attempt over a single existing file
whose read raises an I/O error, in an otherwise fully healthy environment,
aborts the whole sync with a failure result (the exception from
get_file_hash reaches the outer handler), contradicting the claim that a
hashing error degrades to an empty hash and never aborts the attempt. -/
theorem sync_hashing_error_aborts_cex :
    (sync_and_upload exHash envAllOk true
      [{ name := "a", state := FileState.unreadable "Permission denied" }]
      [("x", "y")] "" "" "T1").success = false ∧
    (sync_and_upload exHash envAllOk true
      [{ name := "a", state := FileState.unreadable "Permission denied" }]
      [("x", "y")] "" "" "T1").message = "同步失败: Permission denied" :=
  ⟨rfl, rfl⟩

theorem hasChangesGo_error (hashFn : List Nat → String) (stored : HashDict) (f : SrcFile)
    (msg : String) (hstate : f.state = FileState.unreadable msg) :
    ∀ (files : List SrcFile) (changed : List SrcFile) (cur : HashDict), f ∈ files →
      ∃ m, hasChangesGo hashFn stored files changed cur = Except.error m := by
  intro files
  induction files with
  | nil =>
    intro changed cur h
    cases h
  | cons g rest ih =>
    intro changed cur hmem
    rcases List.mem_cons.mp hmem with heq | hmem'
    · subst heq
      exact ⟨msg, by simp [hasChangesGo, hstate]⟩
    · cases hg : g.state with
      | absent => simpa [hasChangesGo, hg] using ih _ _ hmem'
      | readable c => simpa [hasChangesGo, hg] using ih _ _ hmem'
      | unreadable m => exact ⟨m, by simp [hasChangesGo, hg]⟩

/-- Claim C2, amended: an I/O error while hashing an existing source file in
syncAndUpload does abort the whole sync attempt: the exception propagates
out of get_file_hash (which has no handler) into the outer handler, and the
attempt returns failure with the original baseline unchanged. The
degrade-to-empty-hash policy exists only in the watcher-side
FileHashCache._calculate_hash, which syncAndUpload does not use. -/
theorem sync_hashing_error_aborts (hashFn : List Nat → String) (env : GitEnv)
    (repoLoaded : Bool) (files : List SrcFile) (stored : HashDict)
    (username token time : String) (f : SrcFile) (msg : String)
    (hmem : f ∈ files) (hstate : f.state = FileState.unreadable msg) :
    (sync_and_upload hashFn env repoLoaded files stored username token time).success
      = false ∧
    (sync_and_upload hashFn env repoLoaded files stored username token time).hashes
      = stored := by
  unfold sync_and_upload
  split
  · exact ⟨rfl, rfl⟩
  · obtain ⟨m, hm⟩ := hasChangesGo_error hashFn stored f msg hstate files [] [] hmem
    have herr : has_changes hashFn files stored = Except.error m := by
      simp [has_changes, hm]
    rw [herr]
    exact ⟨rfl, rfl⟩

theorem sync_hashing_error_aborts_w :
    (sync_and_upload exHash envAllOk true
      [{ name := "ok.txt", state := FileState.readable [7] },
       { name := "bad.txt", state := FileState.unreadable "boom" }]
      [("k", "v")] "u" "t" "T2").success = false ∧
    (sync_and_upload exHash envAllOk true
      [{ name := "ok.txt", state := FileState.readable [7] },
       { name := "bad.txt", state := FileState.unreadable "boom" }]
      [("k", "v")] "u" "t" "T2").hashes = [("k", "v")] :=
  sync_hashing_error_aborts exHash envAllOk true
    [{ name := "ok.txt", state := FileState.readable [7] },
     { name := "bad.txt", state := FileState.unreadable "boom" }]
    [("k", "v")] "u" "t" "T2"
    { name := "bad.txt", state := FileState.unreadable "boom" } "boom"
    (by simp) rfl

theorem msg_ne_empty (t : String) : (("自动更新 - " ++ t) == "") = false := by
  rw [beq_eq_false_iff_ne]
  intro h
  have hlen := congrArg String.length h
  rw [String.length_append] at hlen
  have h7 : ("自动更新 - " : String).length = 7 := by decide
  have h0 : ("" : String).length = 0 := by decide
  rw [h7, h0] at hlen
  omega

theorem hasChangesGo_ok (hashFn : List Nat → String) (stored : HashDict) :
    ∀ (files : List SrcFile), files.all notUnreadable = true →
      ∀ (changed : List SrcFile) (cur : HashDict),
        hasChangesGo hashFn stored files changed cur =
          Except.ok (changed ++ files.filter (isChangedB hashFn stored),
            currentHashes hashFn files cur) := by
  intro files
  induction files with
  | nil =>
    intro _ changed cur
    simp [hasChangesGo, currentHashes]
  | cons f rest ih =>
    intro hall changed cur
    rw [List.all_cons, Bool.and_eq_true] at hall
    cases hf : f.state with
    | absent =>
      simp only [hasChangesGo, hf]
      rw [ih hall.2]
      simp [List.filter_cons, isChangedB, hf, currentHashes]
    | readable c =>
      by_cases hc : (hashFn c == dictGet stored f.name "") = true
      · simp only [hasChangesGo, hf, hc, if_true]
        rw [ih hall.2]
        simp [List.filter_cons, isChangedB, hf, hc, currentHashes]
      · simp only [hasChangesGo, hf, hc, if_false, Bool.false_eq_true]
        rw [ih hall.2]
        simp [List.filter_cons, isChangedB, hf, hc, currentHashes]
    | unreadable m =>
      exfalso
      have h1 := hall.1
      simp [notUnreadable, hf] at h1

theorem copy_files_all_ok (changed : List SrcFile) :
    copy_files [] changed =
      (changed.map (fun f => (f.name, true)), changed.map (fun f => GitOp.copy f.name)) := by
  induction changed with
  | nil => rfl
  | cons f rest ih => simp [copy_files, ih]

theorem no_failed_copies (l : List SrcFile) :
    ((l.map (fun f => (f.name, true))).filter (fun r => !r.2)).map Prod.fst = [] := by
  induction l with
  | nil => rfl
  | cons f rest ih => simp [List.filter_cons, ih]

theorem copiedNames_append (l₁ l₂ : List GitOp) :
    copiedNames (l₁ ++ l₂) = copiedNames l₁ ++ copiedNames l₂ := by
  simp [copiedNames, List.filterMap_append]

theorem copiedNames_auth (p : Prop) [Decidable p] (u : String) :
    copiedNames (if p then [GitOp.setRemote u] else []) = [] := by
  split <;> rfl

theorem copiedNames_pull (p : Prop) [Decidable p] :
    copiedNames (if p then [GitOp.pull] else []) = [] := by
  split <;> rfl

theorem copiedNames_cp (env : GitEnv) (rl : Bool) (m t : String) :
    copiedNames (commit_and_push env rl m t).2 = [] := by
  unfold commit_and_push
  repeat' split
  all_goals rfl

theorem copiedNames_copies (l : List SrcFile) :
    copiedNames (l.map (fun f => GitOp.copy f.name)) = l.map SrcFile.name := by
  induction l with
  | nil => rfl
  | cons f rest ih => simp only [List.map_cons, copiedNames, List.filterMap_cons] at ih ⊢; simp [ih]

theorem currentHashes_preserve (hashFn : List Nat → String) (k : String) :
    ∀ (files : List SrcFile), k ∉ files.map SrcFile.name →
      ∀ (cur : HashDict) (dflt : String),
        dictGet (currentHashes hashFn files cur) k dflt = dictGet cur k dflt := by
  intro files
  induction files with
  | nil =>
    intro _ cur dflt
    rfl
  | cons f rest ih =>
    intro hk cur dflt
    simp only [List.map_cons, List.mem_cons] at hk
    push_neg at hk
    cases hf : f.state with
    | readable c =>
      simp only [currentHashes, hf]
      rw [ih hk.2]
      exact dictGet_insert_ne _ _ _ _ _
        (by rw [beq_eq_false_iff_ne]; exact fun e => hk.1 e.symm)
    | absent =>
      simp only [currentHashes, hf]
      exact ih hk.2 cur dflt
    | unreadable m =>
      simp only [currentHashes, hf]
      exact ih hk.2 cur dflt

theorem currentHashes_lookup (hashFn : List Nat → String) :
    ∀ (files : List SrcFile), (files.map SrcFile.name).Nodup →
      ∀ (f : SrcFile) (c : List Nat) (cur : HashDict), f ∈ files →
        f.state = FileState.readable c →
        dictGet (currentHashes hashFn files cur) f.name "" = hashFn c := by
  intro files
  induction files with
  | nil =>
    intro _ f c cur h
    cases h
  | cons g rest ih =>
    intro hnd f c cur hmem hst
    rw [List.map_cons, List.nodup_cons] at hnd
    rcases List.mem_cons.mp hmem with heq | hmem'
    · subst heq
      simp only [currentHashes, hst]
      rw [currentHashes_preserve hashFn f.name rest hnd.1]
      exact dictGet_insert_self _ _ _ _
    · cases hg : g.state with
      | readable c' =>
        simp only [currentHashes, hg]
        exact ih hnd.2 f c _ hmem' hst
      | absent =>
        simp only [currentHashes, hg]
        exact ih hnd.2 f c _ hmem' hst
      | unreadable m =>
        simp only [currentHashes, hg]
        exact ih hnd.2 f c _ hmem' hst

theorem syncAfterDiff_ok (env : GitEnv) (stored : HashDict) (username token time : String)
    (changed : List SrcFile) (cur : HashDict)
    (hcf : env.copyFails = []) (ha : env.addOk = true) (hc : env.commitOk = true)
    (hp : env.pushOk = true) :
    syncAfterDiff env stored username token time (decide (0 < changed.length)) changed cur =
      { success := true, message := "上传成功 - " ++ time, hashes := cur,
        ops := (if username != "" && token != "" then
            [GitOp.setRemote (build_auth_url env.repoUrl username token)]
          else []) ++ (if env.pullOk then [GitOp.pull] else []) ++
          changed.map (fun f => GitOp.copy f.name) ++
          [GitOp.addAll, GitOp.commit ("自动更新 - " ++ time), GitOp.push] } := by
  have hcp : commit_and_push env true ("自动更新 - " ++ time) time =
      ((true, "上传成功 - " ++ time),
        [GitOp.addAll, GitOp.commit ("自动更新 - " ++ time), GitOp.push]) := by
    rw [commit_and_push]
    simp [ha, hc, hp, msg_ne_empty]
  cases changed with
  | nil => simp [syncAfterDiff, hcp]
  | cons g gs => simp [syncAfterDiff, hcf, copy_files_all_ok, no_failed_copies, hcp]

theorem sync_success_shape (hashFn : List Nat → String) (env : GitEnv)
    (files : List SrcFile) (stored : HashDict) (username token time : String)
    (hread : files.all notUnreadable = true) (hcf : env.copyFails = [])
    (ha : env.addOk = true) (hc : env.commitOk = true) (hp : env.pushOk = true) :
    (sync_and_upload hashFn env true files stored username token time).success = true ∧
    (sync_and_upload hashFn env true files stored username token time).hashes =
      currentHashes hashFn files [] ∧
    commitsThenPushes (sync_and_upload hashFn env true files stored username token time)
      time := by
  have hhc : has_changes hashFn files stored =
      Except.ok (decide (0 < (files.filter (isChangedB hashFn stored)).length),
        files.filter (isChangedB hashFn stored), currentHashes hashFn files []) := by
    rw [has_changes, hasChangesGo_ok hashFn stored files hread]
    simp
  have hsync : sync_and_upload hashFn env true files stored username token time =
      syncAfterDiff env stored username token time
        (decide (0 < (files.filter (isChangedB hashFn stored)).length))
        (files.filter (isChangedB hashFn stored)) (currentHashes hashFn files []) := by
    unfold sync_and_upload
    rw [hhc]
    rfl
  rw [hsync, syncAfterDiff_ok env stored username token time _ _ hcf ha hc hp]
  exact ⟨rfl, rfl, _, rfl⟩

theorem sync_reduces (hashFn : List Nat → String) (env : GitEnv)
    (files : List SrcFile) (stored : HashDict) (username token time : String)
    (hread : files.all notUnreadable = true) :
    sync_and_upload hashFn env true files stored username token time =
      syncAfterDiff env stored username token time
        (decide (0 < (files.filter (isChangedB hashFn stored)).length))
        (files.filter (isChangedB hashFn stored)) (currentHashes hashFn files []) := by
  have hhc : has_changes hashFn files stored =
      Except.ok (decide (0 < (files.filter (isChangedB hashFn stored)).length),
        files.filter (isChangedB hashFn stored), currentHashes hashFn files []) := by
    rw [has_changes, hasChangesGo_ok hashFn stored files hread]
    simp
  unfold sync_and_upload
  rw [hhc]
  rfl

theorem copiedNames_cons_copy (n : String) (l : List GitOp) :
    copiedNames (GitOp.copy n :: l) = n :: copiedNames l := by
  simp [copiedNames, List.filterMap_cons]

theorem syncAfterDiff_copies (env : GitEnv) (stored : HashDict)
    (username token time : String) (changed : List SrcFile) (cur : HashDict)
    (hcf : env.copyFails = []) :
    copiedNames (syncAfterDiff env stored username token time
      (decide (0 < changed.length)) changed cur).ops = changed.map SrcFile.name ∧
    ((syncAfterDiff env stored username token time
        (decide (0 < changed.length)) changed cur).success = true →
      (syncAfterDiff env stored username token time
        (decide (0 < changed.length)) changed cur).hashes = cur) := by
  by_cases hb : (commit_and_push env true ("自动更新 - " ++ time) time).1.1 = true
  all_goals cases changed with
  | nil =>
    simp [syncAfterDiff, hb, copiedNames_append, copiedNames_auth, copiedNames_pull,
      copiedNames_cp]
  | cons g gs =>
    simp [syncAfterDiff, hb, hcf, copy_files_all_ok, no_failed_copies,
      copiedNames_append, copiedNames_auth, copiedNames_pull, copiedNames_cp,
      copiedNames_cons_copy, copiedNames_copies]

/-- Claim C3: every successful syncAndUpload attempt stages, commits and
pushes even when the changed-file set is empty: two successive calls with
no file changes between them (the second runs against the hashes the first
returned) each succeed, and each trace ends with stage-all, a commit with a
timestamped message, and a push. -/
theorem sync_heartbeat_two_calls (hashFn : List Nat → String) (env : GitEnv)
    (files : List SrcFile) (stored : HashDict) (username token t₁ t₂ : String)
    (hread : files.all notUnreadable = true) (hcf : env.copyFails = [])
    (ha : env.addOk = true) (hc : env.commitOk = true) (hp : env.pushOk = true) :
    (sync_and_upload hashFn env true files stored username token t₁).success = true ∧
    commitsThenPushes (sync_and_upload hashFn env true files stored username token t₁) t₁ ∧
    (sync_and_upload hashFn env true files
      (sync_and_upload hashFn env true files stored username token t₁).hashes
      username token t₂).success = true ∧
    commitsThenPushes (sync_and_upload hashFn env true files
      (sync_and_upload hashFn env true files stored username token t₁).hashes
      username token t₂) t₂ := by
  obtain ⟨s1, _, c1⟩ :=
    sync_success_shape hashFn env files stored username token t₁ hread hcf ha hc hp
  obtain ⟨s2, _, c2⟩ :=
    sync_success_shape hashFn env files
      (sync_and_upload hashFn env true files stored username token t₁).hashes
      username token t₂ hread hcf ha hc hp
  exact ⟨s1, c1, s2, c2⟩

theorem sync_heartbeat_two_calls_w :
    (sync_and_upload exHash envAllOk true [] [] "" "" "A").success = true ∧
    commitsThenPushes (sync_and_upload exHash envAllOk true [] [] "" "" "A") "A" ∧
    (sync_and_upload exHash envAllOk true []
      (sync_and_upload exHash envAllOk true [] [] "" "" "A").hashes "" "" "B").success
      = true ∧
    commitsThenPushes (sync_and_upload exHash envAllOk true []
      (sync_and_upload exHash envAllOk true [] [] "" "" "A").hashes "" "" "B") "B" :=
  sync_heartbeat_two_calls exHash envAllOk [] [] "" "" "A" "B" rfl rfl rfl rfl rfl

/-- Claim C4: syncAndUpload copies into the working tree exactly the
existing files whose current content hash differs from the baseline entry
for their basename (absent files are skipped, never treated as deletions),
and on success the returned map holds the current hash of every existing
source file, changed and unchanged alike. -/
theorem sync_change_detection (hashFn : List Nat → String) (env : GitEnv)
    (files : List SrcFile) (stored : HashDict) (username token time : String)
    (hnd : (files.map SrcFile.name).Nodup)
    (hread : files.all notUnreadable = true) (hcf : env.copyFails = []) :
    copiedNames (sync_and_upload hashFn env true files stored username token time).ops =
      (files.filter (isChangedB hashFn stored)).map SrcFile.name ∧
    ((sync_and_upload hashFn env true files stored username token time).success = true →
      ∀ f ∈ files, ∀ c, f.state = FileState.readable c →
        dictGet (sync_and_upload hashFn env true files stored username token time).hashes
          f.name "" = hashFn c) := by
  rw [sync_reduces hashFn env files stored username token time hread]
  obtain ⟨hcopies, hhash⟩ :=
    syncAfterDiff_copies env stored username token time
      (files.filter (isChangedB hashFn stored)) (currentHashes hashFn files []) hcf
  refine ⟨hcopies, ?_⟩
  intro hsucc f hf c hst
  rw [hhash hsucc]
  exact currentHashes_lookup hashFn files hnd f c [] hf hst

theorem sync_change_detection_w :
    copiedNames (sync_and_upload exHash envAllOk true
      [{ name := "a", state := FileState.readable [1] },
       { name := "b", state := FileState.readable [2] },
       { name := "c", state := FileState.absent }]
      [("a", "[1]")] "u" "tok" "T1").ops =
      ([{ name := "a", state := FileState.readable [1] },
        { name := "b", state := FileState.readable [2] },
        { name := "c", state := FileState.absent }].filter
          (isChangedB exHash [("a", "[1]")])).map SrcFile.name ∧
    ((sync_and_upload exHash envAllOk true
      [{ name := "a", state := FileState.readable [1] },
       { name := "b", state := FileState.readable [2] },
       { name := "c", state := FileState.absent }]
      [("a", "[1]")] "u" "tok" "T1").success = true →
      ∀ f ∈ ([{ name := "a", state := FileState.readable [1] },
              { name := "b", state := FileState.readable [2] },
              { name := "c", state := FileState.absent }] : List SrcFile), ∀ c,
        f.state = FileState.readable c →
        dictGet (sync_and_upload exHash envAllOk true
          [{ name := "a", state := FileState.readable [1] },
           { name := "b", state := FileState.readable [2] },
           { name := "c", state := FileState.absent }]
          [("a", "[1]")] "u" "tok" "T1").hashes f.name "" = exHash c) :=
  sync_change_detection exHash envAllOk
    [{ name := "a", state := FileState.readable [1] },
     { name := "b", state := FileState.readable [2] },
     { name := "c", state := FileState.absent }]
    [("a", "[1]")] "u" "tok" "T1" (by decide) rfl rfl

end VpnSync
